import Mathlib

/-!
Shallow embedding of the go-asset-helper package (asset.go): manifest-backed
asset-name resolution, attribute merging and rendering, tag construction, and
the configuration facade.  Go maps with string keys are modelled as association
lists in which assignment replaces the entry for an existing key, so every list
built by the embedded operations has at most one entry per key.  Fallible Go
functions returning (value, error) are modelled with Except; functions that can
also panic are modelled with the three-way outcome type GoOutcome.
-/

namespace AssetHelper

/-- Go byte slices, each element a byte value. -/
abbrev Bytes := List Nat

/-- Values produced by encoding/json Unmarshal into an empty interface:
strings, numbers, booleans, null, arrays and objects. -/
inductive Json where
  | str (s : String)
  | num (n : Int)
  | bool (b : Bool)
  | null
  | arr (elems : List Json)
  | obj (fields : List (String × Json))

/-- Lookup m[k] on the association-list model of a Go map. -/
def mapLookup (m : List (String × α)) (k : String) : Option α :=
  (m.find? (fun kv => kv.1 == k)).map (fun kv => kv.2)

/-- Go map assignment m[k] = v: replaces the entry for an existing key,
otherwise appends a fresh entry. -/
def mapInsert (m : List (String × α)) (k : String) (v : α) : List (String × α) :=
  if m.any (fun kv => kv.1 == k) then
    m.map (fun kv => if kv.1 == k then (k, v) else kv)
  else m ++ [(k, v)]

/-- strings.HasSuffix. -/
def hasSuffix (s suf : String) : Bool :=
  suf.data.isSuffixOf s.data

/-- strings.TrimSuffix: drops the suffix when present, otherwise returns the
string unchanged. -/
def trimSuffix (s suf : String) : String :=
  if hasSuffix s suf then String.mk (s.data.take (s.data.length - suf.data.length)) else s

/-- Scanning loop of filepath.Ext over the reversed character list: walks from
the end of the path, stops at a path separator, and returns the suffix that
starts at the final dot. -/
def extRev : List Char → List Char → Option (List Char)
  | [], _ => none
  | c :: rest, acc =>
    if c = '/' then none
    else if c = '.' then some ('.' :: acc)
    else extRev rest (c :: acc)

/-- filepath.Ext: the file name extension of the last path element, empty when
that element has no dot. -/
def filepathExt (path : String) : String :=
  match extRev path.data.reverse [] with
  | some cs => String.mk cs
  | none => ""

/-- toMinifiedName from asset.go: inserts ".min" before the file extension. -/
def toMinifiedName (name : String) : String :=
  trimSuffix name (filepathExt name) ++ ".min" ++ filepathExt name

/-- getStringFromMap from asset.go: returns (value, true) when the key holds a
string, and (defaultValue, false) when the key is absent or its value is not a
string. -/
def getStringFromMap (amap : List (String × Json)) (defaultValue : String) : String × Bool :=
  match mapLookup amap defaultValue with
  | some value =>
    match value with
    | Json.str val => (val, true)
    | _ => (defaultValue, false)
  | none => (defaultValue, false)

/-- The StaticMap type from asset.go: the parsed manifest table plus the
minified-mode flag. -/
structure StaticMap where
  innerMap : List (String × Json)
  useMinified : Bool

/-- StaticMap.Get from asset.go: with minified mode on, first tries the derived
minified name; otherwise (or on a miss or non-string value) falls back to the
direct lookup, whose miss case returns the name itself. -/
def StaticMap.Get (sm : StaticMap) (name : String) : String :=
  if sm.useMinified then
    let r := getStringFromMap sm.innerMap (toMinifiedName name)
    if r.2 then r.1
    else (getStringFromMap sm.innerMap name).1
  else (getStringFromMap sm.innerMap name).1

/-- Per-character action of html.EscapeString. -/
def escapeChar (c : Char) : String :=
  if c = '&' then "&amp;"
  else if c = '\x27' then "&#39;"
  else if c = '<' then "&lt;"
  else if c = '>' then "&gt;"
  else if c = '\x22' then "&#34;"
  else String.mk [c]

/-- Concatenation of the per-character replacements over a character list. -/
def escapeList : List Char → String
  | [] => ""
  | c :: rest => escapeChar c ++ escapeList rest

/-- html.EscapeString: escapes ampersand, apostrophe, less-than, greater-than
and double quote, leaving every other character in place. -/
def escapeString (s : String) : String :=
  escapeList s.data

/-- One rendered attribute, fmt.Sprintf of the escaped name and value. -/
def renderAttr (key value : String) : String :=
  escapeString key ++ "=\x22" ++ escapeString value ++ "\x22"

/-- Byte-lexicographic order on character lists, the order sort.StringSlice
sorts by (code-point order coincides with UTF-8 byte order). -/
def lexLe : List Char → List Char → Bool
  | [], _ => true
  | _ :: _, [] => false
  | a :: as, b :: bs =>
    if a.toNat < b.toNat then true
    else if b.toNat < a.toNat then false
    else lexLe as bs

/-- Lexicographic string comparison used by the rendered-attribute sort. -/
def strLe (a b : String) : Bool := lexLe a.data b.data

/-- sort.StringSlice(attrSlice).Sort(): ascending lexicographic sort. -/
def sortStrings (l : List String) : List String :=
  List.insertionSort (fun a b => strLe a b = true) l

/-- strings.Join with a separator. -/
def goJoin (sep : String) : List String → String
  | [] => ""
  | [s] => s
  | s :: rest => s ++ sep ++ goJoin sep rest

/-- mapToAttrs from asset.go: escape and format every pair, sort the rendered
strings, join with single spaces.  Go iterates the map in an unspecified order;
the sort makes the result independent of that order, and the association-list
order stands in for it here. -/
def mapToAttrs (attrMap : List (String × String)) : String :=
  goJoin " " (sortStrings (attrMap.map (fun kv => renderAttr kv.1 kv.2)))

/-- The consecutive (name, value) pairs read by the loop of attrSliceToMap. -/
def pairsOf : List String → List (String × String)
  | k :: v :: rest => (k, v) :: pairsOf rest
  | _ => []

/-- The loop of attrSliceToMap: starting from the empty map, assign each pair
in order (a later pair with the same name overwrites an earlier one). -/
def attrMapOfPairs (ps : List (String × String)) : List (String × String) :=
  ps.foldl (fun m kv => mapInsert m kv.1 kv.2) []

/-- attrSliceToMap from asset.go: odd-length slices are rejected with the
attributes error, even-length slices are folded into a map. -/
def attrSliceToMap (attrsSlice : List String) : Except String (List (String × String)) :=
  if attrsSlice.length % 2 ≠ 0 then
    Except.error "ScriptTag attributes don\x27t form pairs"
  else
    Except.ok (attrMapOfPairs (pairsOf attrsSlice))

/-- updateMap from asset.go: assign every entry of the updating map into the
updated map.  The updating map has unique keys, so the fold over its entry list
is a faithful model of Go's arbitrary-order map iteration. -/
def updateMap (updated updating : List (String × String)) : List (String × String) :=
  updating.foldl (fun m kv => mapInsert m kv.1 kv.2) updated

/-- The StaticMapper interface: a name-resolution function. -/
abbrev StaticMapper := String → String

/-- The Loader type from asset.go: returns file contents for a path. -/
abbrev Loader := String → Except String Bytes

/-- The Static struct from asset.go after successful construction.  The
manifestLoader field is an Option because WithManifestLoader may install a nil
loader. -/
structure Static where
  urlPrefix : String
  manifestPath : String
  manifestLoader : Option Loader
  useMinified : Bool
  mapping : StaticMapper

/-- The attribute map ScriptTag renders: the type default, then the caller
overrides, then src assigned to the resolved URL (after the merge, so it always
wins). -/
def scriptTagAttrs (st : Static) (path : String) (attrMap : List (String × String)) :
    List (String × String) :=
  mapInsert (updateMap [("type", "text/javascript")] attrMap) "src"
    (st.urlPrefix ++ st.mapping path)

/-- Static.ScriptTag from asset.go. -/
def Static.ScriptTag (st : Static) (path : String) (attrs : List String) :
    Except String String :=
  match attrSliceToMap attrs with
  | Except.error e => Except.error e
  | Except.ok attrMap =>
    Except.ok ("<script " ++ mapToAttrs (scriptTagAttrs st path attrMap) ++ "></script>")

/-- The attribute map LinkTag renders: the type and rel defaults, the caller
overrides, then href assigned to the resolved URL. -/
def linkTagAttrs (st : Static) (path : String) (attrMap : List (String × String)) :
    List (String × String) :=
  mapInsert (updateMap [("type", "text/css"), ("rel", "stylesheet")] attrMap) "href"
    (st.urlPrefix ++ st.mapping path)

/-- Static.LinkTag from asset.go. -/
def Static.LinkTag (st : Static) (path : String) (attrs : List String) :
    Except String String :=
  match attrSliceToMap attrs with
  | Except.error e => Except.error e
  | Except.ok attrMap =>
    Except.ok ("<link " ++ mapToAttrs (linkTagAttrs st path attrMap) ++ "/>")

/-- Static.Static from asset.go: returns the stored URL prefix; the Go
signature's error result is always nil. -/
def Static.Static (st : Static) : String := st.urlPrefix

/-- Outcome of a Go call that can return a value, return an error, or panic. -/
inductive GoOutcome (α : Type) where
  | ok (val : α)
  | err (msg : String)
  | panic

/-- The MappingBuilder type from asset.go (the error result widened to
GoOutcome so the default builder, which may panic, fits it). -/
abbrev MappingBuilder := Unit → GoOutcome StaticMapper

/-- createMapping from asset.go.  json.Unmarshal is a standard-library
boundary, supplied as the unmarshal parameter; raw manifest bytes are judged
through it.  The unchecked Go type assertion of the parsed value to a JSON
object is the panic case. -/
def createMapping (unmarshal : Bytes → Except String Json) (load : Option Loader)
    (path : String) (useMinified : Bool) : GoOutcome StaticMap :=
  match load with
  | some l =>
    match l path with
    | Except.error e => GoOutcome.err e
    | Except.ok content =>
      match unmarshal content with
      | Except.error e => GoOutcome.err e
      | Except.ok manifest =>
        match manifest with
        | Json.obj fields => GoOutcome.ok ⟨fields, useMinified⟩
        | _ => GoOutcome.panic
  | none => GoOutcome.ok ⟨[], useMinified⟩

/-- The option values a client of the package can construct: the three
exported With functions of asset.go. -/
inductive optionSetter where
  | withManifestLoader (load : Option Loader)
  | withMappingBuilder (builder : MappingBuilder)
  | withUseMinified (minified : Bool)

/-- The Static value under construction inside NewStatic, before the mapping
is built. -/
structure staticInit where
  urlPrefix : String
  manifestPath : String
  manifestLoader : Option Loader
  useMinified : Bool
  mappingBuilder : Option MappingBuilder

/-- Application of one option setter, as the With functions of asset.go
define it. -/
def applyOption (st : staticInit) (o : optionSetter) : staticInit :=
  match o with
  | optionSetter.withManifestLoader l => { st with manifestLoader := l }
  | optionSetter.withMappingBuilder b => { st with mappingBuilder := some b }
  | optionSetter.withUseMinified m => { st with useMinified := m }

/-- The prefix normalization at the top of NewStatic: append one separator when
the argument does not already end with one. -/
def normalizePrefix (u : String) : String :=
  if hasSuffix u "/" then u else u ++ "/"

/-- The configuration NewStatic has after applying the options in order to the
initial value (filesystem loader installed, minified off, no builder). -/
def newStaticConfig (fileLoader : Loader) (u manifestPath : String)
    (options : List optionSetter) : staticInit :=
  options.foldl applyOption ⟨normalizePrefix u, manifestPath, some fileLoader, false, none⟩

/-- The mapping builder NewStatic runs: the caller's builder when one was
installed, otherwise the default one wrapping createMapping with the
configured loader and flags. -/
def newStaticBuilder (unmarshal : Bytes → Except String Json) (fileLoader : Loader)
    (u manifestPath : String) (options : List optionSetter) : MappingBuilder :=
  match (newStaticConfig fileLoader u manifestPath options).mappingBuilder with
  | some b => b
  | none => fun _ =>
    match createMapping unmarshal (newStaticConfig fileLoader u manifestPath options).manifestLoader
        manifestPath (newStaticConfig fileLoader u manifestPath options).useMinified with
    | GoOutcome.ok sm => GoOutcome.ok sm.Get
    | GoOutcome.err e => GoOutcome.err e
    | GoOutcome.panic => GoOutcome.panic

/-- NewStatic from asset.go.  The ambient filesystem read (ioutil.ReadFile) is
the fileLoader parameter and json.Unmarshal is the unmarshal parameter; both
are standard-library boundaries.  The mapping is built eagerly; a builder
failure aborts construction with no Static value. -/
def NewStatic (unmarshal : Bytes → Except String Json) (fileLoader : Loader)
    (u manifestPath : String) (options : List optionSetter) : GoOutcome Static :=
  match newStaticBuilder unmarshal fileLoader u manifestPath options () with
  | GoOutcome.ok m =>
    GoOutcome.ok ⟨(newStaticConfig fileLoader u manifestPath options).urlPrefix, manifestPath,
      (newStaticConfig fileLoader u manifestPath options).manifestLoader,
      (newStaticConfig fileLoader u manifestPath options).useMinified, m⟩
  | GoOutcome.err e => GoOutcome.err e
  | GoOutcome.panic => GoOutcome.panic

/-- Truncation to a 32-bit word. -/
def w32 (n : Nat) : Nat := n % 4294967296

/-- Right rotation of a 32-bit word. -/
def rotr (x n : Nat) : Nat := w32 ((x >>> n) + (x <<< (32 - n)))

/-- Big-endian byte decomposition of a value into the given number of bytes. -/
def beBytes : Nat → Nat → Bytes
  | 0, _ => []
  | k + 1, v => beBytes k (v / 256) ++ [v % 256]

/-- The 32-bit words of a byte list, big-endian, four bytes each. -/
def toWords : Bytes → List Nat
  | a :: b :: c :: d :: rest => (((a * 256 + b) * 256 + c) * 256 + d) :: toWords rest
  | _ => []

/-- SHA-256 message-schedule sigma-0. -/
def ssig0 (x : Nat) : Nat := (rotr x 7) ^^^ (rotr x 18) ^^^ (x >>> 3)

/-- SHA-256 message-schedule sigma-1. -/
def ssig1 (x : Nat) : Nat := (rotr x 17) ^^^ (rotr x 19) ^^^ (x >>> 10)

/-- SHA-256 compression Sigma-0. -/
def bsig0 (x : Nat) : Nat := (rotr x 2) ^^^ (rotr x 13) ^^^ (rotr x 22)

/-- SHA-256 compression Sigma-1. -/
def bsig1 (x : Nat) : Nat := (rotr x 6) ^^^ (rotr x 11) ^^^ (rotr x 25)

/-- Extension of the message schedule by the given number of further words. -/
def extendSchedule (ws : List Nat) : Nat → List Nat
  | 0 => ws
  | f + 1 =>
    let i := ws.length
    extendSchedule
      (ws ++ [w32 (ssig1 (ws.getD (i - 2) 0) + ws.getD (i - 7) 0 +
        ssig0 (ws.getD (i - 15) 0) + ws.getD (i - 16) 0)]) f

/-- The 64 SHA-256 round constants, written in decimal. -/
def sha256K : List Nat :=
  [1116352408, 1899447441, 3049323471, 3921009573, 961987163,
   1508970993, 2453635748, 2870763221, 3624381080, 310598401,
   607225278, 1426881987, 1925078388, 2162078206, 2614888103,
   3248222580, 3835390401, 4022224774, 264347078, 604807628,
   770255983, 1249150122, 1555081692, 1996064986, 2554220882,
   2821834349, 2952996808, 3210313671, 3336571891, 3584528711,
   113926993, 338241895, 666307205, 773529912, 1294757372,
   1396182291, 1695183700, 1986661051, 2177026350, 2456956037,
   2730485921, 2820302411, 3259730800, 3345764771, 3516065817,
   3600352804, 4094571909, 275423344, 430227734, 506948616,
   659060556, 883997877, 958139571, 1322822218, 1537002063,
   1747873779, 1955562222, 2024104815, 2227730452, 2361852424,
   2428436474, 2756734187, 3204031479, 3329325298]

/-- The eight SHA-256 initial hash values, written in decimal. -/
def sha256Init : List Nat :=
  [1779033703, 3144134277, 1013904242, 2773480762,
   1359893119, 2600822924, 528734635, 1541459225]

/-- One SHA-256 round: absorb one constant-and-schedule word into the working
state (a, b, c, d, e, f, g, h). -/
def sha256Round (st : Nat × Nat × Nat × Nat × Nat × Nat × Nat × Nat) (kw : Nat × Nat) :
    Nat × Nat × Nat × Nat × Nat × Nat × Nat × Nat :=
  match st with
  | (a, b, c, d, e, f, g, h) =>
    let ch := (e &&& f) ^^^ ((e ^^^ 4294967295) &&& g)
    let maj := (a &&& b) ^^^ (a &&& c) ^^^ (b &&& c)
    let t1 := w32 (h + bsig1 e + ch + kw.1 + kw.2)
    let t2 := w32 (bsig0 a + maj)
    (w32 (t1 + t2), a, b, c, w32 (d + t1), e, f, g)

/-- One SHA-256 block: extend the schedule to 64 words, run 64 rounds, add the
result into the running hash values. -/
def sha256Block (hs : List Nat) (block : Bytes) : List Nat :=
  let ws := extendSchedule (toWords block) 48
  let st0 := (hs.getD 0 0, hs.getD 1 0, hs.getD 2 0, hs.getD 3 0,
    hs.getD 4 0, hs.getD 5 0, hs.getD 6 0, hs.getD 7 0)
  match (sha256K.zip ws).foldl sha256Round st0 with
  | (a, b, c, d, e, f, g, h) =>
    [w32 (hs.getD 0 0 + a), w32 (hs.getD 1 0 + b), w32 (hs.getD 2 0 + c),
     w32 (hs.getD 3 0 + d), w32 (hs.getD 4 0 + e), w32 (hs.getD 5 0 + f),
     w32 (hs.getD 6 0 + g), w32 (hs.getD 7 0 + h)]

/-- SHA-256 padding: a 0x80 byte, zeros to 56 mod 64, and the bit length as
eight big-endian bytes. -/
def sha256Pad (msg : Bytes) : Bytes :=
  msg ++ [128] ++ List.replicate ((64 - (msg.length + 9) % 64) % 64) 0 ++
    beBytes 8 (msg.length * 8)

/-- Split a list into 64-byte chunks; the fuel bounds the recursion and any
fuel of at least the list length is enough. -/
def chunks64 : Nat → Bytes → List Bytes
  | 0, _ => []
  | _, [] => []
  | f + 1, l => l.take 64 :: chunks64 f (l.drop 64)

/-- SHA-256 of a byte list, as a 32-byte digest. -/
def sha256 (msg : Bytes) : Bytes :=
  let padded := sha256Pad msg
  ((chunks64 padded.length padded).foldl sha256Block sha256Init).foldr
    (fun w acc => beBytes 4 w ++ acc) []

/-- The standard base64 alphabet. -/
def base64Alphabet : String :=
  "ABCDEFGHIJKLMNOPQRSTUVWXYZabcdefghijklmnopqrstuvwxyz0123456789+/"

/-- The base64 digit for a 6-bit value. -/
def b64Char (n : Nat) : Char := base64Alphabet.data.getD n 'A'

/-- Standard base64 encoding with padding. -/
def base64Encode : Bytes → String
  | [] => ""
  | [a] => String.mk [b64Char (a / 4), b64Char (a % 4 * 16), '=', '=']
  | [a, b] => String.mk [b64Char (a / 4), b64Char (a % 4 * 16 + b / 16), b64Char (b % 16 * 4), '=']
  | a :: b :: c :: rest =>
    String.mk [b64Char (a / 4), b64Char (a % 4 * 16 + b / 16),
      b64Char (b % 16 * 4 + c / 64), b64Char (c % 64)] ++ base64Encode rest

/-- Modelled from the spec: the Integrity Hasher of the SRI feature, whose Go
implementation is not among the repository's source files (only its tests
reference WithUseSri).  Hash(content) computes SHA-256 over the full byte
content and returns "sha256-" followed by the standard base64 of the digest. -/
def integrityHash (content : Bytes) : String :=
  "sha256-" ++ base64Encode (sha256 content)

/-- Modelled from the spec: the attribute map of an SRI-enabled script tag —
the type default, the caller overrides, the resolved src, then the integrity
descriptor of the asset bytes and crossorigin set to anonymous. -/
def scriptTagSriAttrs (st : Static) (path : String) (attrMap : List (String × String))
    (content : Bytes) : List (String × String) :=
  mapInsert (mapInsert (scriptTagAttrs st path attrMap) "integrity" (integrityHash content))
    "crossorigin" "anonymous"

/-- Modelled from the spec: SRI-enabled ScriptTag rendering, whose Go
implementation is not among the repository's source files.  When useSri is set
the resolved asset's bytes are read through the loader; a read failure aborts
the render with no markup, otherwise the integrity and crossorigin attributes
join the merged set before rendering. -/
def ScriptTagSri (st : Static) (useSri : Bool) (assetLoader : Loader) (path : String)
    (attrs : List String) : Except String String :=
  match attrSliceToMap attrs with
  | Except.error e => Except.error e
  | Except.ok attrMap =>
    if useSri then
      match assetLoader (st.mapping path) with
      | Except.error e => Except.error e
      | Except.ok content =>
        Except.ok ("<script " ++ mapToAttrs (scriptTagSriAttrs st path attrMap content) ++
          "></script>")
    else
      Except.ok ("<script " ++ mapToAttrs (scriptTagAttrs st path attrMap) ++ "></script>")

/-- Modelled from the spec: the attribute map of an SRI-enabled link tag. -/
def linkTagSriAttrs (st : Static) (path : String) (attrMap : List (String × String))
    (content : Bytes) : List (String × String) :=
  mapInsert (mapInsert (linkTagAttrs st path attrMap) "integrity" (integrityHash content))
    "crossorigin" "anonymous"

/-- Modelled from the spec: SRI-enabled LinkTag rendering, whose Go
implementation is not among the repository's source files. -/
def LinkTagSri (st : Static) (useSri : Bool) (assetLoader : Loader) (path : String)
    (attrs : List String) : Except String String :=
  match attrSliceToMap attrs with
  | Except.error e => Except.error e
  | Except.ok attrMap =>
    if useSri then
      match assetLoader (st.mapping path) with
      | Except.error e => Except.error e
      | Except.ok content =>
        Except.ok ("<link " ++ mapToAttrs (linkTagSriAttrs st path attrMap content) ++ "/>")
    else
      Except.ok ("<link " ++ mapToAttrs (linkTagAttrs st path attrMap) ++ "/>")

/-- The byte content of the SRI test vector, the ASCII bytes of the string
"the quick brown fox jumps over the lazy dog" followed by a newline. -/
def foxBytes : Bytes :=
  "the quick brown fox jumps over the lazy dog\n".data.map Char.toNat

/-- The bytes of a string, for feeding literal file contents to loaders. -/
def stringBytes (s : String) : Bytes := s.data.map Char.toNat

/-- The keys of an association-list map are pairwise distinct.  Every map the
embedded operations build satisfies this, mirroring Go map keys. -/
def keysNodup (m : List (String × α)) : Prop := (m.map Prod.fst).Nodup

/-- The value attached to the last pair carrying the given name, the value a
sequence of Go map assignments leaves in place. -/
def findLastVal (ps : List (String × String)) (k : String) : Option String :=
  (ps.reverse.find? (fun kv => kv.1 == k)).map (fun kv => kv.2)

/-- The second string occurs contiguously inside the first. -/
def containsSubstr (s t : String) : Prop := t.data <:+: s.data

instance (s t : String) : Decidable (containsSubstr s t) :=
  inferInstanceAs (Decidable (t.data <:+: s.data))

/-- The lookup rule of section 4.1 of the specification, written from its
words for comparison with StaticMap.Get: with minified mode on, a string value
at the derived minified key wins; otherwise a string value at the name itself;
otherwise the name unchanged. -/
def specGet (sm : StaticMap) (name : String) : String :=
  match (if sm.useMinified then mapLookup sm.innerMap (toMinifiedName name) else none) with
  | some (Json.str v) => v
  | _ =>
    match mapLookup sm.innerMap name with
    | some (Json.str v) => v
    | _ => name

/-- A Static value over an empty manifest with the documentation's prefix,
for concrete renders. -/
def sampleStatic : Static :=
  ⟨"/static/", "data/manifest.json", none, false, (StaticMap.mk [] false).Get⟩

/-- The stored URL prefix of a construction outcome, when one was produced. -/
def resultPrefix : GoOutcome Static → Option String
  | GoOutcome.ok st => some st.urlPrefix
  | GoOutcome.err _ => none
  | GoOutcome.panic => none

/-- A loader that always serves the given bytes. -/
def loaderOf (bs : Bytes) : Loader := fun _ => Except.ok bs

/-- A loader that always fails with the given message. -/
def failingLoader (msg : String) : Loader := fun _ => Except.error msg

/-- An unmarshal outcome that rejects every input, the boundary behavior of
json.Unmarshal on bytes that are not valid JSON. -/
def rejectingUnmarshal (msg : String) : Bytes → Except String Json :=
  fun _ => Except.error msg

/-- An unmarshal outcome that parses every input to the same value. -/
def constUnmarshal (j : Json) : Bytes → Except String Json :=
  fun _ => Except.ok j

instance : DecidableEq (Except String String) := fun a b =>
  match a, b with
  | Except.ok x, Except.ok y =>
    if h : x = y then isTrue (by rw [h]) else isFalse (by simp [h])
  | Except.ok _, Except.error _ => isFalse (by simp)
  | Except.error _, Except.ok _ => isFalse (by simp)
  | Except.error x, Except.error y =>
    if h : x = y then isTrue (by rw [h]) else isFalse (by simp [h])

/-- Replacing the value under one key leaves lookups of other keys alone. -/
theorem lookup_map_replace_ne (t : List (String × α)) (k : String) (v : α) (k' : String)
    (h : k' ≠ k) :
    mapLookup (t.map (fun kv => if kv.1 == k then (k, v) else kv)) k' = mapLookup t k' := by
  have hkk : k ≠ k' := Ne.symm h
  induction t with
  | nil => rfl
  | cons a t ih =>
    unfold mapLookup at *
    by_cases ha : a.1 = k
    · have hhead : (if a.1 == k then (k, v) else a) = (k, v) := by simp [ha]
      rw [List.map_cons, hhead,
        @List.find?_cons_of_neg _ (fun kv => kv.1 == k') (k, v) _ (by simp [hkk]),
        @List.find?_cons_of_neg _ (fun kv => kv.1 == k') a _ (by simp [ha, hkk])]
      exact ih
    · have hhead : (if a.1 == k then (k, v) else a) = a := by simp [ha]
      rw [List.map_cons, hhead]
      by_cases hk' : a.1 = k'
      · rw [@List.find?_cons_of_pos _ (fun kv => kv.1 == k') a _ (by simp [hk'])]
        rw [@List.find?_cons_of_pos _ (fun kv => kv.1 == k') a _ (by simp [hk'])]
      · rw [@List.find?_cons_of_neg _ (fun kv => kv.1 == k') a _ (by simp [hk'])]
        rw [@List.find?_cons_of_neg _ (fun kv => kv.1 == k') a _ (by simp [hk'])]
        exact ih

/-- Replacing the value under a key that occurs makes lookups of it find the
new value. -/
theorem lookup_map_replace_eq (t : List (String × α)) (k : String) (v : α)
    (h : t.any (fun kv => kv.1 == k) = true) :
    mapLookup (t.map (fun kv => if kv.1 == k then (k, v) else kv)) k = some v := by
  induction t with
  | nil => simp at h
  | cons a t ih =>
    by_cases ha : a.1 = k
    · have hhead : (if a.1 == k then (k, v) else a) = (k, v) := by simp [ha]
      unfold mapLookup
      rw [List.map_cons, hhead,
        @List.find?_cons_of_pos _ (fun kv => kv.1 == k) (k, v) _ (by simp)]
      rfl
    · have hhead : (if a.1 == k then (k, v) else a) = a := by simp [ha]
      have htail : t.any (fun kv => kv.1 == k) = true := by
        rcases List.any_eq_true.mp h with ⟨kv, hkv, hp⟩
        rcases List.mem_cons.mp hkv with rfl | hkv'
        · exact absurd (by simpa using hp) ha
        · exact List.any_eq_true.mpr ⟨kv, hkv', hp⟩
      unfold mapLookup at *
      rw [List.map_cons, hhead,
        @List.find?_cons_of_neg _ (fun kv => kv.1 == k) a _ (by simp [ha])]
      exact ih htail

/-- Lookup after a Go map assignment: the assigned key sees the new value,
every other key is untouched. -/
theorem mapLookup_insert (m : List (String × α)) (k : String) (v : α) (k' : String) :
    mapLookup (mapInsert m k v) k' = if k' = k then some v else mapLookup m k' := by
  unfold mapInsert
  by_cases hany : m.any (fun kv => kv.1 == k) = true
  · rw [if_pos hany]
    by_cases hk : k' = k
    · subst hk; rw [if_pos rfl]; exact lookup_map_replace_eq m k' v hany
    · rw [if_neg hk]; exact lookup_map_replace_ne m k v k' hk
  · rw [if_neg hany]
    unfold mapLookup
    rw [List.find?_append]
    by_cases hk : k' = k
    · subst hk
      have h1 : m.find? (fun kv => kv.1 == k') = none := by
        rw [List.find?_eq_none]
        intro x hx hpx
        exact hany (List.any_eq_true.mpr ⟨x, hx, hpx⟩)
      have h2 : List.find? (fun kv => kv.1 == k') [(k', v)] = some (k', v) :=
        @List.find?_cons_of_pos _ (fun kv => kv.1 == k') (k', v) _ (by simp)
      rw [h1, h2, if_pos rfl]
      rfl
    · have h2 : List.find? (fun kv => kv.1 == k') [(k, v)] = none := by
        rw [@List.find?_cons_of_neg _ (fun kv => kv.1 == k') (k, v) _ (by simp [Ne.symm hk])]
        rfl
      rw [h2, Option.or_none, if_neg hk]

/-- Replacing a value does not change the key list. -/
theorem keys_map_replace (t : List (String × α)) (k : String) (v : α) :
    (t.map (fun kv => if kv.1 == k then (k, v) else kv)).map Prod.fst = t.map Prod.fst := by
  induction t with
  | nil => rfl
  | cons a t ih =>
    by_cases ha : a.1 = k
    · simp only [List.map_cons, ih]
      simp [ha]
    · simp only [List.map_cons, ih]
      simp [ha]

/-- Go map assignment preserves distinctness of the keys. -/
theorem keysNodup_insert (m : List (String × α)) (k : String) (v : α)
    (h : keysNodup m) : keysNodup (mapInsert m k v) := by
  unfold keysNodup mapInsert at *
  by_cases hany : m.any (fun kv => kv.1 == k) = true
  · rw [if_pos hany, keys_map_replace]; exact h
  · rw [if_neg hany, List.map_append]
    have hk : k ∉ m.map Prod.fst := by
      intro hmem
      rcases List.mem_map.mp hmem with ⟨kv, hkv, hfst⟩
      exact hany (List.any_eq_true.mpr ⟨kv, hkv, by simp [hfst]⟩)
    have hperm := List.perm_append_singleton k (m.map Prod.fst)
    have : (List.map Prod.fst [((k : String), v)]) = [k] := rfl
    rw [this]
    exact hperm.nodup_iff.mpr (List.nodup_cons.mpr ⟨hk, h⟩)

/-- Folding Go map assignments preserves distinctness of the keys. -/
theorem keysNodup_foldl_insert (ps : List (String × String)) :
    ∀ d : List (String × String), keysNodup d →
      keysNodup (ps.foldl (fun m kv => mapInsert m kv.1 kv.2) d) := by
  induction ps with
  | nil => intro d h; exact h
  | cons p t ih =>
    intro d h
    rw [List.foldl_cons]
    exact ih _ (keysNodup_insert d p.1 p.2 h)

/-- Every map built by attrSliceToMap has distinct keys. -/
theorem keysNodup_attrMapOfPairs (ps : List (String × String)) :
    keysNodup (attrMapOfPairs ps) :=
  keysNodup_foldl_insert ps [] List.nodup_nil

/-- Lookup through a fold of Go map assignments: the last assignment of the
key wins, and the starting map answers when the key was never assigned. -/
theorem mapLookup_foldl_insert (ps : List (String × String)) :
    ∀ (d : List (String × String)) (k : String),
      mapLookup (ps.foldl (fun m kv => mapInsert m kv.1 kv.2) d) k =
        (findLastVal ps k).or (mapLookup d k) := by
  induction ps with
  | nil => intro d k; simp [findLastVal, mapLookup]
  | cons p t ih =>
    intro d k
    rw [List.foldl_cons, ih]
    unfold findLastVal
    rw [List.reverse_cons, List.find?_append]
    cases hft : List.find? (fun kv => kv.1 == k) t.reverse with
    | some kv => simp [hft]
    | none =>
      rw [mapLookup_insert]
      by_cases hk : k = p.1
      · have hfp : List.find? (fun kv => kv.1 == k) [p] = some p :=
          @List.find?_cons_of_pos _ (fun kv => kv.1 == k) p _ (by simp [hk])
        simp [hft, hfp, hk]
      · have hfp : List.find? (fun kv => kv.1 == k) [p] = none := by
          rw [@List.find?_cons_of_neg _ (fun kv => kv.1 == k) p _ (by simp [Ne.symm hk])]
          rfl
        simp [hft, hfp, hk]

/-- In a map with distinct keys, a member pair is found by lookup. -/
theorem mapLookup_eq_some_of_mem (m : List (String × α)) (k : String) (v : α)
    (h : keysNodup m) (hmem : (k, v) ∈ m) : mapLookup m k = some v := by
  induction m with
  | nil => simp at hmem
  | cons a t ih =>
    unfold keysNodup at h
    rw [List.map_cons, List.nodup_cons] at h
    rcases List.mem_cons.mp hmem with heq | hmem'
    · rw [← heq]
      unfold mapLookup
      rw [@List.find?_cons_of_pos _ (fun kv => kv.1 == k) (k, v) _ (by simp)]
      rfl
    · by_cases hk : a.1 = k
      · exact absurd (hk ▸ List.mem_map.mpr ⟨(k, v), hmem', rfl⟩) h.1
      · unfold mapLookup at *
        rw [@List.find?_cons_of_neg _ (fun kv => kv.1 == k) a _ (by simp [hk])]
        exact ih h.2 hmem'

/-- A successful lookup exhibits a member pair. -/
theorem mem_of_mapLookup_eq_some (m : List (String × α)) (k : String) (v : α)
    (h : mapLookup m k = some v) : (k, v) ∈ m := by
  unfold mapLookup at h
  cases hf : m.find? (fun kv => kv.1 == k) with
  | none => rw [hf] at h; simp at h
  | some kv =>
    rw [hf] at h
    have hm := List.mem_of_find?_eq_some hf
    have hp := List.find?_some hf
    obtain ⟨k1, v1⟩ := kv
    simp at h hp
    rw [← hp, ← h]
    exact hm

/-- A lookup misses exactly when the key is not among the keys. -/
theorem mapLookup_eq_none_iff (m : List (String × α)) (k : String) :
    mapLookup m k = none ↔ k ∉ m.map Prod.fst := by
  unfold mapLookup
  constructor
  · intro h hmem
    rcases List.mem_map.mp hmem with ⟨kv, hkv, hfst⟩
    cases hf : m.find? (fun kv => kv.1 == k) with
    | some x => rw [hf] at h; simp at h
    | none =>
      rw [List.find?_eq_none] at hf
      exact hf kv hkv (by simp [hfst])
  · intro h
    cases hf : m.find? (fun kv => kv.1 == k) with
    | none => rfl
    | some x =>
      have hp := List.find?_some hf
      have hm := List.mem_of_find?_eq_some hf
      simp at hp
      exact absurd (List.mem_map.mpr ⟨x, hm, hp⟩) h

/-- Lookups agree on permuted maps with distinct keys. -/
theorem mapLookup_perm (m₁ m₂ : List (String × α)) (k : String)
    (h : keysNodup m₁) (hp : m₁.Perm m₂) : mapLookup m₁ k = mapLookup m₂ k := by
  have h₂ : keysNodup m₂ := ((hp.map Prod.fst).nodup_iff).mp h
  cases hl : mapLookup m₁ k with
  | some v =>
    exact (mapLookup_eq_some_of_mem m₂ k v h₂
      (hp.mem_iff.mp (mem_of_mapLookup_eq_some _ _ _ hl))).symm
  | none =>
    have hno := (mapLookup_eq_none_iff m₁ k).mp hl
    symm
    rw [mapLookup_eq_none_iff]
    intro hmem
    exact hno (((hp.map Prod.fst).mem_iff).mpr hmem)

/-- Go map assignment respects permutation of the entry list. -/
theorem mapInsert_perm (m₁ m₂ : List (String × α)) (k : String) (v : α)
    (hp : m₁.Perm m₂) : (mapInsert m₁ k v).Perm (mapInsert m₂ k v) := by
  unfold mapInsert
  by_cases h : m₁.any (fun kv => kv.1 == k) = true
  · rcases List.any_eq_true.mp h with ⟨x, hx, hpx⟩
    have h2 : m₂.any (fun kv => kv.1 == k) = true :=
      List.any_eq_true.mpr ⟨x, hp.mem_iff.mp hx, hpx⟩
    rw [if_pos h, if_pos h2]
    exact hp.map _
  · have h2 : ¬m₂.any (fun kv => kv.1 == k) = true := by
      intro hc
      rcases List.any_eq_true.mp hc with ⟨x, hx, hpx⟩
      exact h (List.any_eq_true.mpr ⟨x, hp.mem_iff.mpr hx, hpx⟩)
    rw [if_neg h, if_neg h2]
    exact hp.append_right _

/-- Two folds of Go map assignments over permuted pair lists with distinct
names produce permuted maps. -/
theorem foldl_insert_perm (d ps₁ ps₂ : List (String × String))
    (hd : keysNodup d) (hps : keysNodup ps₁) (hp : ps₁.Perm ps₂) :
    (ps₁.foldl (fun m kv => mapInsert m kv.1 kv.2) d).Perm
      (ps₂.foldl (fun m kv => mapInsert m kv.1 kv.2) d) := by
  have hn₁ := keysNodup_foldl_insert ps₁ d hd
  have hn₂ := keysNodup_foldl_insert ps₂ d hd
  have hlook : ∀ k, mapLookup (ps₁.foldl (fun m kv => mapInsert m kv.1 kv.2) d) k =
      mapLookup (ps₂.foldl (fun m kv => mapInsert m kv.1 kv.2) d) k := by
    intro k
    rw [mapLookup_foldl_insert, mapLookup_foldl_insert]
    have hrev : ps₁.reverse.Perm ps₂.reverse :=
      (ps₁.reverse_perm).trans (hp.trans ps₂.reverse_perm.symm)
    have hnr : keysNodup ps₁.reverse := by
      unfold keysNodup
      rw [List.map_reverse]
      exact List.nodup_reverse.mpr hps
    have : findLastVal ps₁ k = findLastVal ps₂ k :=
      mapLookup_perm ps₁.reverse ps₂.reverse k hnr hrev
    rw [this]
  apply List.Subperm.antisymm
  · apply List.subperm_of_subset (List.Nodup.of_map Prod.fst hn₁)
    intro x hx
    obtain ⟨xk, xv⟩ := x
    exact mem_of_mapLookup_eq_some _ _ _
      ((hlook xk) ▸ mapLookup_eq_some_of_mem _ xk xv hn₁ hx)
  · apply List.subperm_of_subset (List.Nodup.of_map Prod.fst hn₂)
    intro x hx
    obtain ⟨xk, xv⟩ := x
    exact mem_of_mapLookup_eq_some _ _ _
      ((hlook xk).symm ▸ mapLookup_eq_some_of_mem _ xk xv hn₂ hx)

/-- The assigned pair is always a member after a Go map assignment. -/
theorem mem_mapInsert_self (m : List (String × α)) (k : String) (v : α) :
    (k, v) ∈ mapInsert m k v := by
  unfold mapInsert
  by_cases h : m.any (fun kv => kv.1 == k) = true
  · rw [if_pos h]
    rcases List.any_eq_true.mp h with ⟨kv, hkv, hp⟩
    exact List.mem_map.mpr ⟨kv, hkv, by simp [hp]⟩
  · rw [if_neg h]
    exact List.mem_append_right _ (List.mem_singleton.mpr rfl)

/-- Pairs under other names survive a Go map assignment. -/
theorem mem_mapInsert_of_ne (m : List (String × α)) (k : String) (v : α) (k' : String)
    (v' : α) (hne : k' ≠ k) (h : (k', v') ∈ m) : (k', v') ∈ mapInsert m k v := by
  unfold mapInsert
  by_cases hany : m.any (fun kv => kv.1 == k) = true
  · rw [if_pos hany]
    exact List.mem_map.mpr ⟨(k', v'), h, by simp [hne]⟩
  · rw [if_neg hany]
    exact List.mem_append_left _ h

/-- The byte-lexicographic order is total. -/
theorem lexLe_total (as bs : List Char) : lexLe as bs = true ∨ lexLe bs as = true := by
  induction as generalizing bs with
  | nil => left; rfl
  | cons a as ih =>
    cases bs with
    | nil => right; rfl
    | cons b bs =>
      by_cases h1 : a.toNat < b.toNat
      · left; simp [lexLe, h1]
      · by_cases h2 : b.toNat < a.toNat
        · right; simp [lexLe, h2]
        · rcases ih bs with h | h
          · left; simp [lexLe, h1, h2, h]
          · right; simp [lexLe, h1, h2, h]

/-- The byte-lexicographic order is transitive. -/
theorem lexLe_trans (as : List Char) : ∀ bs cs : List Char,
    lexLe as bs = true → lexLe bs cs = true → lexLe as cs = true := by
  induction as with
  | nil => intro bs cs _ _; rfl
  | cons a as ih =>
    intro bs cs h1 h2
    cases bs with
    | nil => simp [lexLe] at h1
    | cons b bs =>
      cases cs with
      | nil => simp [lexLe] at h2
      | cons c cs =>
        simp only [lexLe] at h1 h2 ⊢
        split_ifs at h1 h2 ⊢ <;> first
          | rfl
          | omega
          | (exact ih bs cs h1 h2)

/-- The byte-lexicographic order is antisymmetric. -/
theorem lexLe_antisymm (as : List Char) : ∀ bs : List Char,
    lexLe as bs = true → lexLe bs as = true → as = bs := by
  induction as with
  | nil =>
    intro bs h1 h2
    cases bs with
    | nil => rfl
    | cons b bs => simp [lexLe] at h2
  | cons a as ih =>
    intro bs h1 h2
    cases bs with
    | nil => simp [lexLe] at h1
    | cons b bs =>
      simp only [lexLe] at h1 h2
      split_ifs at h1 h2 <;> try omega
      rename_i hab hba
      have hn : a.toNat = b.toNat := by omega
      have hc : a = b := by
        unfold Char.toNat at hn
        exact Char.eq_of_val_eq (UInt32.toNat.inj hn)
      rw [hc, ih bs h1 h2]

instance : IsTotal String (fun a b => strLe a b = true) :=
  ⟨fun a b => lexLe_total a.data b.data⟩

instance : IsTrans String (fun a b => strLe a b = true) :=
  ⟨fun a b c => lexLe_trans a.data b.data c.data⟩

instance : IsAntisymm String (fun a b => strLe a b = true) :=
  ⟨fun a b h1 h2 => by
    have hd := lexLe_antisymm a.data b.data h1 h2
    cases a; cases b
    exact congrArg String.mk hd⟩

/-- Sorting the same multiset of strings gives the same list. -/
theorem sortStrings_perm (l₁ l₂ : List String) (hp : l₁.Perm l₂) :
    sortStrings l₁ = sortStrings l₂ := by
  apply List.eq_of_perm_of_sorted (r := fun a b => strLe a b = true)
  · exact (List.perm_insertionSort _ l₁).trans (hp.trans (List.perm_insertionSort _ l₂).symm)
  · exact List.sorted_insertionSort _ l₁
  · exact List.sorted_insertionSort _ l₂

/-- Rendered attributes only depend on the multiset of pairs. -/
theorem mapToAttrs_perm (m₁ m₂ : List (String × String)) (hp : m₁.Perm m₂) :
    mapToAttrs m₁ = mapToAttrs m₂ := by
  unfold mapToAttrs
  rw [sortStrings_perm _ _ (hp.map _)]

/-- Every element of a joined list occurs contiguously in the join. -/
theorem containsSubstr_goJoin (sep : String) (l : List String) (a : String)
    (h : a ∈ l) : containsSubstr (goJoin sep l) a := by
  induction l with
  | nil => simp at h
  | cons x t ih =>
    cases t with
    | nil =>
      have hx : a = x := by simpa using h
      subst hx
      exact List.infix_refl _
    | cons y t' =>
      rcases List.mem_cons.mp h with rfl | h'
      · show a.data <:+: ((a ++ sep) ++ goJoin sep (y :: t')).data
        rw [String.data_append, String.data_append, List.append_assoc]
        exact (List.prefix_append a.data _).isInfix
      · have hi := ih h'
        show a.data <:+: ((x ++ sep) ++ goJoin sep (y :: t')).data
        rw [String.data_append]
        exact hi.trans (List.suffix_append _ _).isInfix

/-- A pair of the attribute map appears, rendered, inside any string built
around the rendered attribute list. -/
theorem containsSubstr_tag (pre post : String) (m : List (String × String))
    (k v : String) (h : (k, v) ∈ m) :
    containsSubstr (pre ++ mapToAttrs m ++ post) (renderAttr k v) := by
  have h1 : renderAttr k v ∈ sortStrings (m.map (fun kv => renderAttr kv.1 kv.2)) := by
    unfold sortStrings
    rw [List.mem_insertionSort]
    exact List.mem_map.mpr ⟨(k, v), h, rfl⟩
  have h2 := containsSubstr_goJoin " " _ _ h1
  show (renderAttr k v).data <:+: ((pre ++ mapToAttrs m) ++ post).data
  rw [String.data_append, String.data_append]
  exact h2.trans (List.infix_append pre.data (mapToAttrs m).data post.data)

/-- Escaping is the identity on characters the escaper does not touch. -/
theorem escapeList_all_plain (cs : List Char)
    (h : ∀ c ∈ cs, escapeChar c = String.mk [c]) : escapeList cs = String.mk cs := by
  induction cs with
  | nil => rfl
  | cons c t ih =>
    show escapeChar c ++ escapeList t = String.mk (c :: t)
    rw [h c (List.mem_cons_self c t), ih (fun x hx => h x (List.mem_cons_of_mem c hx))]
    rfl

/-- An indexed character of a list of untouched characters, with an untouched
default, is untouched. -/
theorem getD_plain (l : List Char) (d : Char)
    (hl : ∀ c ∈ l, escapeChar c = String.mk [c]) (hd : escapeChar d = String.mk [d]) :
    ∀ n : Nat, escapeChar (l.getD n d) = String.mk [l.getD n d] := by
  induction l with
  | nil => intro n; simpa using hd
  | cons c t ih =>
    intro n
    cases n with
    | zero => simpa using hl c (List.mem_cons_self c t)
    | succ n0 =>
      rw [List.getD_cons_succ]
      exact ih (fun x hx => hl x (List.mem_cons_of_mem c hx)) n0

/-- Every character of the base64 alphabet passes through escaping. -/
theorem plain_b64Char (n : Nat) : escapeChar (b64Char n) = String.mk [b64Char n] :=
  getD_plain base64Alphabet.data 'A' (by decide) (by decide) n

/-- Every character of a base64 encoding passes through escaping. -/
theorem plain_base64 : ∀ bs : Bytes, ∀ c ∈ (base64Encode bs).data, escapeChar c = String.mk [c]
  | [] => by intro c hc; simp [base64Encode] at hc
  | [a] => by
    intro c hc
    have hdata : (base64Encode [a]).data =
        [b64Char (a / 4), b64Char (a % 4 * 16), '=', '='] := rfl
    rw [hdata] at hc
    simp only [List.mem_cons, List.not_mem_nil, or_false] at hc
    rcases hc with rfl | rfl | rfl | rfl
    · exact plain_b64Char _
    · exact plain_b64Char _
    · decide
    · decide
  | [a, b] => by
    intro c hc
    have hdata : (base64Encode [a, b]).data =
        [b64Char (a / 4), b64Char (a % 4 * 16 + b / 16), b64Char (b % 16 * 4), '='] := rfl
    rw [hdata] at hc
    simp only [List.mem_cons, List.not_mem_nil, or_false] at hc
    rcases hc with rfl | rfl | rfl | rfl
    · exact plain_b64Char _
    · exact plain_b64Char _
    · exact plain_b64Char _
    · decide
  | a :: b :: c0 :: rest => by
    intro c hc
    have hdata : (base64Encode (a :: b :: c0 :: rest)).data =
        [b64Char (a / 4), b64Char (a % 4 * 16 + b / 16), b64Char (b % 16 * 4 + c0 / 64),
          b64Char (c0 % 64)] ++ (base64Encode rest).data := by
      show (String.mk _ ++ base64Encode rest).data = _
      rw [String.data_append]
    rw [hdata] at hc
    rcases List.mem_append.mp hc with h | h
    · simp only [List.mem_cons, List.not_mem_nil, or_false] at h
      rcases h with rfl | rfl | rfl | rfl <;> exact plain_b64Char _
    · exact plain_base64 rest c h

/-- Escaping leaves a string of untouched characters unchanged. -/
theorem escapeString_eq_self (s : String)
    (h : ∀ c ∈ s.data, escapeChar c = String.mk [c]) : escapeString s = s := by
  unfold escapeString
  rw [escapeList_all_plain s.data h]

/-- Escaping leaves an integrity descriptor unchanged: its characters are the
sha256 prefix, base64 digits, plus and slash and padding, none escaped. -/
theorem escapeString_integrityHash (bs : Bytes) :
    escapeString (integrityHash bs) = integrityHash bs := by
  apply escapeString_eq_self
  intro c hc
  have hdata : (integrityHash bs).data =
      "sha256-".data ++ (base64Encode (sha256 bs)).data := by
    unfold integrityHash
    rw [String.data_append]
  rw [hdata] at hc
  rcases List.mem_append.mp hc with h | h
  · have hall : ∀ x ∈ "sha256-".data, escapeChar x = String.mk [x] := by decide
    exact hall c h
  · exact plain_base64 _ c h

/-- No option setter touches the URL prefix. -/
theorem applyOption_urlPrefix (st : staticInit) (o : optionSetter) :
    (applyOption st o).urlPrefix = st.urlPrefix := by
  cases o <;> rfl

/-- Folding option setters never changes the URL prefix. -/
theorem foldl_applyOption_urlPrefix (options : List optionSetter) :
    ∀ st : staticInit, (options.foldl applyOption st).urlPrefix = st.urlPrefix := by
  induction options with
  | nil => intro st; rfl
  | cons o t ih =>
    intro st
    rw [List.foldl_cons, ih, applyOption_urlPrefix]

/-- The configuration built from any option list keeps the normalized URL
prefix. -/
theorem newStaticConfig_urlPrefix (fileLoader : Loader) (u mp : String)
    (options : List optionSetter) :
    (newStaticConfig fileLoader u mp options).urlPrefix = normalizePrefix u := by
  unfold newStaticConfig
  rw [foldl_applyOption_urlPrefix]

/-- The normalized prefix always ends with a separator. -/
theorem hasSuffix_normalizePrefix (u : String) :
    hasSuffix (normalizePrefix u) "/" = true := by
  unfold normalizePrefix
  by_cases h : hasSuffix u "/" = true
  · rw [if_pos h]; exact h
  · rw [if_neg h]
    unfold hasSuffix
    rw [String.data_append]
    simp [List.isSuffixOf, List.reverse_append]

/-- C1: StaticMap.Get resolves a name exactly as specified: with minified mode
enabled it first derives the minified variant and returns its value when that
key holds a string; otherwise (minified mode off, minified key absent, or its
value not a string) it returns the string value under the name itself when
there is one, and the name unchanged when there is not. -/
theorem C1_staticMap_get (sm : StaticMap) (name : String) :
    sm.Get name = specGet sm name := by
  unfold StaticMap.Get specGet getStringFromMap
  cases hm : sm.useMinified
  · simp only [Bool.false_eq_true, if_false]
    cases hdir : mapLookup sm.innerMap name
    · simp
    · rename_i v
      cases v <;> simp
  · simp only [if_true]
    cases hmin : mapLookup sm.innerMap (toMinifiedName name)
    · simp only []
      cases hdir : mapLookup sm.innerMap name
      · simp
      · rename_i v
        cases v <;> simp
    · rename_i v
      cases v <;> simp <;>
        (cases hdir : mapLookup sm.innerMap name
         case' some v2 => cases v2) <;> simp

/-- C10: on an even-length override list no error is reported, and each name
resolves to the value of the last pair carrying it. -/
theorem C10_last_pair_wins (attrs : List String) (h : attrs.length % 2 = 0) :
    attrSliceToMap attrs = Except.ok (attrMapOfPairs (pairsOf attrs)) ∧
      ∀ k, mapLookup (attrMapOfPairs (pairsOf attrs)) k = findLastVal (pairsOf attrs) k := by
  constructor
  · unfold attrSliceToMap
    simp [h]
  · intro k
    unfold attrMapOfPairs
    rw [mapLookup_foldl_insert]
    rw [show mapLookup ([] : List (String × String)) k = none from rfl, Option.or_none]

/-- Witness for C10: in the list assigning first 1 then 2 to the name a, the
merged map answers with 2, the later value. -/
theorem C10_witness :
    mapLookup (attrMapOfPairs (pairsOf ["a", "1", "a", "2"])) "a" =
        findLastVal (pairsOf ["a", "1", "a", "2"]) "a" ∧
      findLastVal (pairsOf ["a", "1", "a", "2"]) "a" = some "2" :=
  ⟨(C10_last_pair_wins ["a", "1", "a", "2"] (by decide)).2 "a", by decide⟩

/-- C5: createMapping returns an error when the unmarshal boundary rejects the
manifest bytes, but on bytes that parse to a non-object JSON value (here the
array parsed from "[1,2]") the unchecked Go type assertion panics instead of
returning the ManifestParseError the specification promises. -/
theorem C5_nonobject_manifest_panics :
    createMapping (rejectingUnmarshal "invalid character g")
        (some (loaderOf (stringBytes "garbage"))) "filename" false =
          GoOutcome.err "invalid character g" ∧
      createMapping (constUnmarshal (Json.arr [Json.num 1, Json.num 2]))
        (some (loaderOf (stringBytes "[1,2]"))) "filename" false = GoOutcome.panic :=
  ⟨rfl, rfl⟩

/-- C4: an even-length override list renders a tag with no error; an
odd-length list fails with the attributes error and produces no markup; and
because tag rendering never changes the Static value, any later call with a
well-formed list still succeeds. -/
theorem C4_attr_parity (st : Static) (path : String) (attrs : List String) :
    (attrs.length % 2 = 0 →
      (∃ t, st.ScriptTag path attrs = Except.ok t) ∧
        ∃ t, st.LinkTag path attrs = Except.ok t) ∧
    (attrs.length % 2 ≠ 0 →
      st.ScriptTag path attrs = Except.error "ScriptTag attributes don\x27t form pairs" ∧
        st.LinkTag path attrs = Except.error "ScriptTag attributes don\x27t form pairs") ∧
    (∀ attrs₂, attrs₂.length % 2 = 0 →
      ∃ t, st.ScriptTag path attrs₂ = Except.ok t) := by
  have hok : ∀ l : List String, l.length % 2 = 0 →
      attrSliceToMap l = Except.ok (attrMapOfPairs (pairsOf l)) := by
    intro l hl
    unfold attrSliceToMap
    simp [hl]
  refine ⟨?_, ?_, ?_⟩
  · intro h
    constructor
    · exact ⟨_, by unfold Static.ScriptTag; rw [hok attrs h]⟩
    · exact ⟨_, by unfold Static.LinkTag; rw [hok attrs h]⟩
  · intro h
    have hm : attrSliceToMap attrs =
        Except.error "ScriptTag attributes don\x27t form pairs" := by
      unfold attrSliceToMap
      simp [h]
    constructor
    · unfold Static.ScriptTag; rw [hm]
    · unfold Static.LinkTag; rw [hm]
  · intro attrs₂ h₂
    exact ⟨_, by unfold Static.ScriptTag; rw [hok attrs₂ h₂]⟩

/-- Witness for C4: two pairs succeed, one lone string fails with the
attributes error, and a following well-formed call succeeds. -/
theorem C4_witness :
    (∃ t, sampleStatic.ScriptTag "js/a.js" ["defer", "defer"] = Except.ok t) ∧
      sampleStatic.ScriptTag "js/a.js" ["defer"] =
        Except.error "ScriptTag attributes don\x27t form pairs" ∧
      ∃ t, sampleStatic.ScriptTag "js/a.js" [] = Except.ok t :=
  ⟨((C4_attr_parity sampleStatic "js/a.js" ["defer", "defer"]).1 (by decide)).1,
    ((C4_attr_parity sampleStatic "js/a.js" ["defer"]).2.1 (by decide)).1,
    (C4_attr_parity sampleStatic "js/a.js" ["defer"]).2.2 [] (by decide)⟩

/-- C6: merging applies the override map over the defaults by name, the
override value replacing the default one entirely; concretely, overriding type
on a link tag renders type as text/plain and not as the text/css default. -/
theorem C6_override_beats_default (d m : List (String × String)) (k v : String)
    (hnd : keysNodup m) (hl : mapLookup m k = some v) :
    mapLookup (updateMap d m) k = some v ∧
      sampleStatic.LinkTag "css/x.css" ["type", "text/plain"] =
        Except.ok
          "<link href=\x22/static/css/x.css\x22 rel=\x22stylesheet\x22 type=\x22text/plain\x22/>" ∧
      containsSubstr
        "<link href=\x22/static/css/x.css\x22 rel=\x22stylesheet\x22 type=\x22text/plain\x22/>"
        "type=\x22text/plain\x22" ∧
      ¬containsSubstr
        "<link href=\x22/static/css/x.css\x22 rel=\x22stylesheet\x22 type=\x22text/plain\x22/>"
        "type=\x22text/css\x22" := by
  refine ⟨?_, by rfl, by decide, by decide⟩
  unfold updateMap
  rw [mapLookup_foldl_insert]
  have hnr : keysNodup m.reverse := by
    unfold keysNodup
    rw [List.map_reverse]
    exact List.nodup_reverse.mpr hnd
  have hlast : findLastVal m k = some v := by
    show mapLookup m.reverse k = some v
    rw [mapLookup_perm m.reverse m k hnr (List.reverse_perm m)]
    exact hl
  rw [hlast]
  rfl

/-- Witness for C6: a caller pair for type replaces the text/css default. -/
theorem C6_witness :
    mapLookup (updateMap [("type", "text/css")] [("type", "text/plain")]) "type" =
      some "text/plain" :=
  (C6_override_beats_default [("type", "text/css")] [("type", "text/plain")]
    "type" "text/plain" (by unfold keysNodup; decide) (by decide)).1

/-- C9: src and href are assigned after the override merge, so whatever the
caller passed, the rendered attribute map binds them to the URL prefix plus
the resolved name, and the rendered tag carries that attribute. -/
theorem C9_resolved_url_wins (st : Static) (path : String) (attrs : List String)
    (m : List (String × String)) (hm : attrSliceToMap attrs = Except.ok m) :
    mapLookup (scriptTagAttrs st path m) "src" = some (st.urlPrefix ++ st.mapping path) ∧
      mapLookup (linkTagAttrs st path m) "href" = some (st.urlPrefix ++ st.mapping path) ∧
      st.ScriptTag path attrs =
        Except.ok ("<script " ++ mapToAttrs (scriptTagAttrs st path m) ++ "></script>") ∧
      containsSubstr ("<script " ++ mapToAttrs (scriptTagAttrs st path m) ++ "></script>")
        (renderAttr "src" (st.urlPrefix ++ st.mapping path)) ∧
      st.LinkTag path attrs =
        Except.ok ("<link " ++ mapToAttrs (linkTagAttrs st path m) ++ "/>") ∧
      containsSubstr ("<link " ++ mapToAttrs (linkTagAttrs st path m) ++ "/>")
        (renderAttr "href" (st.urlPrefix ++ st.mapping path)) := by
  refine ⟨?_, ?_, ?_, ?_, ?_, ?_⟩
  · unfold scriptTagAttrs
    rw [mapLookup_insert, if_pos rfl]
  · unfold linkTagAttrs
    rw [mapLookup_insert, if_pos rfl]
  · unfold Static.ScriptTag
    rw [hm]
  · exact containsSubstr_tag "<script " "></script>" _ _ _ (mem_mapInsert_self _ _ _)
  · unfold Static.LinkTag
    rw [hm]
  · exact containsSubstr_tag "<link " "/>" _ _ _ (mem_mapInsert_self _ _ _)

/-- Witness for C9: a caller-supplied src pair is overwritten by the resolved
URL. -/
theorem C9_witness :
    mapLookup (scriptTagAttrs sampleStatic "js/a.js" (attrMapOfPairs (pairsOf ["src", "evil"])))
        "src" = some (sampleStatic.urlPrefix ++ sampleStatic.mapping "js/a.js") ∧
      sampleStatic.urlPrefix ++ sampleStatic.mapping "js/a.js" = "/static/js/a.js" :=
  ⟨(C9_resolved_url_wins sampleStatic "js/a.js" ["src", "evil"]
      (attrMapOfPairs (pairsOf ["src", "evil"])) rfl).1, by decide⟩

/-- C8 (amended): the stored prefix is the argument with one separator
appended when the argument does not already end in one (an argument already
ending in a separator, even several, is stored verbatim), so the stored prefix
always ends in a separator, and Static returns it verbatim with no error. -/
theorem C8_prefix_normalized (unmarshal : Bytes → Except String Json)
    (fileLoader : Loader) (u mp : String) (options : List optionSetter) (st : Static)
    (h : NewStatic unmarshal fileLoader u mp options = GoOutcome.ok st) :
    st.urlPrefix = normalizePrefix u ∧ hasSuffix st.urlPrefix "/" = true ∧
      Static.Static st = st.urlPrefix := by
  have hpre : st.urlPrefix = normalizePrefix u := by
    unfold NewStatic at h
    cases hb : newStaticBuilder unmarshal fileLoader u mp options () with
    | ok m =>
      rw [hb] at h
      injection h with h2
      rw [← h2]
      exact newStaticConfig_urlPrefix fileLoader u mp options
    | err e => rw [hb] at h; exact absurd h (by simp)
    | panic => rw [hb] at h; exact absurd h (by simp)
  refine ⟨hpre, ?_, rfl⟩
  rw [hpre]
  exact hasSuffix_normalizePrefix u

/-- Witness for C8: constructing with the prefix a stores a/. -/
theorem C8_witness :
    (⟨"a/", "m", none, false, (StaticMap.mk [] false).Get⟩ : Static).urlPrefix =
        normalizePrefix "a" ∧
      hasSuffix (⟨"a/", "m", none, false, (StaticMap.mk [] false).Get⟩ : Static).urlPrefix "/" =
        true ∧
      Static.Static (⟨"a/", "m", none, false, (StaticMap.mk [] false).Get⟩ : Static) =
        (⟨"a/", "m", none, false, (StaticMap.mk [] false).Get⟩ : Static).urlPrefix :=
  C8_prefix_normalized (rejectingUnmarshal "bad") (failingLoader "e") "a" "m"
    [optionSetter.withManifestLoader none] _ rfl

/-- C8 counterexample: an argument already ending in two separators is stored
verbatim, so the stored prefix ends in a double separator, not exactly one. -/
theorem C8_counterexample :
    resultPrefix (NewStatic (rejectingUnmarshal "bad") (failingLoader "e") "a//" "m"
        [optionSetter.withManifestLoader none]) = some "a//" ∧
      hasSuffix "a//" "//" = true :=
  ⟨rfl, by decide⟩

/-- C7: construction fails with the underlying error, producing no Static at
all, whenever the manifest loader fails, the manifest bytes fail to
unmarshal, or a custom mapping builder fails. -/
theorem C7_construction_failfast (unmarshal : Bytes → Except String Json)
    (fileLoader : Loader) (u mp : String) (options : List optionSetter) :
    (∀ l e, (newStaticConfig fileLoader u mp options).mappingBuilder = none →
      (newStaticConfig fileLoader u mp options).manifestLoader = some l →
      l mp = Except.error e →
      NewStatic unmarshal fileLoader u mp options = GoOutcome.err e) ∧
    (∀ l bs e, (newStaticConfig fileLoader u mp options).mappingBuilder = none →
      (newStaticConfig fileLoader u mp options).manifestLoader = some l →
      l mp = Except.ok bs → unmarshal bs = Except.error e →
      NewStatic unmarshal fileLoader u mp options = GoOutcome.err e) ∧
    (∀ b e, (newStaticConfig fileLoader u mp options).mappingBuilder = some b →
      b () = GoOutcome.err e →
      NewStatic unmarshal fileLoader u mp options = GoOutcome.err e) := by
  refine ⟨?_, ?_, ?_⟩
  · intro l e hb hl he
    have hbe : newStaticBuilder unmarshal fileLoader u mp options () = GoOutcome.err e := by
      simp only [newStaticBuilder, hb, createMapping, hl, he]
    unfold NewStatic
    rw [hbe]
  · intro l bs e hb hl hbs he
    have hbe : newStaticBuilder unmarshal fileLoader u mp options () = GoOutcome.err e := by
      simp only [newStaticBuilder, hb, createMapping, hl, hbs, he]
    unfold NewStatic
    rw [hbe]
  · intro b e hb he
    have hbe : newStaticBuilder unmarshal fileLoader u mp options () = GoOutcome.err e := by
      simp only [newStaticBuilder, hb]
      exact he
    unfold NewStatic
    rw [hbe]

/-- Witness for C7: a failing loader, a rejecting unmarshal and a failing
custom builder each abort construction with the respective error. -/
theorem C7_witness :
    NewStatic (rejectingUnmarshal "not json") (failingLoader "io error") "/static/" "m" [] =
        GoOutcome.err "io error" ∧
      NewStatic (rejectingUnmarshal "not json") (loaderOf (stringBytes "garbage")) "/static/" "m"
          [] = GoOutcome.err "not json" ∧
      NewStatic (rejectingUnmarshal "not json") (loaderOf (stringBytes "garbage")) "/static/" "m"
          [optionSetter.withMappingBuilder (fun _ => GoOutcome.err "builder failed")] =
        GoOutcome.err "builder failed" :=
  ⟨(C7_construction_failfast (rejectingUnmarshal "not json") (failingLoader "io error")
      "/static/" "m" []).1 (failingLoader "io error") "io error" rfl rfl rfl,
    (C7_construction_failfast (rejectingUnmarshal "not json") (loaderOf (stringBytes "garbage"))
      "/static/" "m" []).2.1 (loaderOf (stringBytes "garbage")) (stringBytes "garbage")
      "not json" rfl rfl rfl rfl,
    (C7_construction_failfast (rejectingUnmarshal "not json") (loaderOf (stringBytes "garbage"))
      "/static/" "m"
      [optionSetter.withMappingBuilder (fun _ => GoOutcome.err "builder failed")]).2.2
      (fun _ => GoOutcome.err "builder failed") "builder failed" rfl rfl⟩

/-- C3 (amended): rendering escapes each attribute name and value, formats the
pair, sorts the rendered strings lexicographically and joins them with single
spaces; hence for override lists whose pair names are pairwise distinct,
permuting the pairs before merging renders the identical tag. -/
theorem C3_render_order_independent (st : Static) (path : String)
    (attrs₁ attrs₂ : List String)
    (h₁ : attrs₁.length % 2 = 0) (h₂ : attrs₂.length % 2 = 0)
    (hnd : keysNodup (pairsOf attrs₁))
    (hp : (pairsOf attrs₁).Perm (pairsOf attrs₂)) :
    st.ScriptTag path attrs₁ = st.ScriptTag path attrs₂ ∧
      st.LinkTag path attrs₁ = st.LinkTag path attrs₂ := by
  have hok : ∀ l : List String, l.length % 2 = 0 →
      attrSliceToMap l = Except.ok (attrMapOfPairs (pairsOf l)) := by
    intro l hl
    unfold attrSliceToMap
    simp [hl]
  have hmperm : (attrMapOfPairs (pairsOf attrs₁)).Perm (attrMapOfPairs (pairsOf attrs₂)) :=
    foldl_insert_perm [] _ _ List.nodup_nil hnd hp
  have hmkeys : keysNodup (attrMapOfPairs (pairsOf attrs₁)) := keysNodup_attrMapOfPairs _
  constructor
  · have e₁ : st.ScriptTag path attrs₁ = Except.ok ("<script " ++
        mapToAttrs (scriptTagAttrs st path (attrMapOfPairs (pairsOf attrs₁))) ++ "></script>") := by
      unfold Static.ScriptTag
      rw [hok attrs₁ h₁]
    have e₂ : st.ScriptTag path attrs₂ = Except.ok ("<script " ++
        mapToAttrs (scriptTagAttrs st path (attrMapOfPairs (pairsOf attrs₂))) ++ "></script>") := by
      unfold Static.ScriptTag
      rw [hok attrs₂ h₂]
    have hupd := foldl_insert_perm [("type", "text/javascript")] _ _
      (by unfold keysNodup; decide) hmkeys hmperm
    have hattrs : (scriptTagAttrs st path (attrMapOfPairs (pairsOf attrs₁))).Perm
        (scriptTagAttrs st path (attrMapOfPairs (pairsOf attrs₂))) := by
      unfold scriptTagAttrs updateMap
      exact mapInsert_perm _ _ _ _ hupd
    rw [e₁, e₂, mapToAttrs_perm _ _ hattrs]
  · have e₁ : st.LinkTag path attrs₁ = Except.ok ("<link " ++
        mapToAttrs (linkTagAttrs st path (attrMapOfPairs (pairsOf attrs₁))) ++ "/>") := by
      unfold Static.LinkTag
      rw [hok attrs₁ h₁]
    have e₂ : st.LinkTag path attrs₂ = Except.ok ("<link " ++
        mapToAttrs (linkTagAttrs st path (attrMapOfPairs (pairsOf attrs₂))) ++ "/>") := by
      unfold Static.LinkTag
      rw [hok attrs₂ h₂]
    have hupd := foldl_insert_perm [("type", "text/css"), ("rel", "stylesheet")] _ _
      (by unfold keysNodup; decide) hmkeys hmperm
    have hattrs : (linkTagAttrs st path (attrMapOfPairs (pairsOf attrs₁))).Perm
        (linkTagAttrs st path (attrMapOfPairs (pairsOf attrs₂))) := by
      unfold linkTagAttrs updateMap
      exact mapInsert_perm _ _ _ _ hupd
    rw [e₁, e₂, mapToAttrs_perm _ _ hattrs]

/-- Witness for C3: two distinct-name override lists that permute each other
render the same script tag. -/
theorem C3_witness :
    sampleStatic.ScriptTag "p" ["a", "1", "b", "2"] =
      sampleStatic.ScriptTag "p" ["b", "2", "a", "1"] :=
  (C3_render_order_independent sampleStatic "p" ["a", "1", "b", "2"] ["b", "2", "a", "1"]
    (by decide) (by decide) (by unfold keysNodup; decide) (by decide)).1

/-- C3 counterexample: with the name a overridden twice, permuting the pairs
changes which value is assigned last, so the rendered script tags differ even
though both lists have even length and their pair lists are permutations of
each other. -/
theorem C3_counterexample :
    (pairsOf ["a", "1", "a", "2"]).Perm (pairsOf ["a", "2", "a", "1"]) ∧
      (["a", "1", "a", "2"] : List String).length % 2 = 0 ∧
      (["a", "2", "a", "1"] : List String).length % 2 = 0 ∧
      sampleStatic.ScriptTag "p" ["a", "1", "a", "2"] ≠
        sampleStatic.ScriptTag "p" ["a", "2", "a", "1"] :=
  ⟨by decide, by decide, by decide, by decide⟩

/-- C2 (modelled from the spec, the SRI implementation not being among the
repository's source files): with SRI enabled and the asset bytes read
successfully, every rendered script or link tag contains an integrity
attribute whose value is sha256- followed by the standard base64 of the
SHA-256 digest of the full byte content, together with crossorigin set to
anonymous; on the documented test bytes the descriptor is the documented
string, and escaping does not alter a descriptor. -/
theorem C2_sri_integrity (st : Static) (al : Loader) (path : String)
    (attrs : List String) (m : List (String × String)) (content : Bytes)
    (hm : attrSliceToMap attrs = Except.ok m)
    (hr : al (st.mapping path) = Except.ok content) :
    integrityHash content = "sha256-" ++ base64Encode (sha256 content) ∧
      escapeString (integrityHash content) = integrityHash content ∧
      renderAttr "crossorigin" "anonymous" = "crossorigin=\x22anonymous\x22" ∧
      integrityHash foxBytes = "sha256-EVOkCA8fywRCWqC4QcKxRgb+bfJdkHbSofrOLVr1cSk=" ∧
      (∀ tag, ScriptTagSri st true al path attrs = Except.ok tag →
        containsSubstr tag (renderAttr "integrity" (integrityHash content)) ∧
          containsSubstr tag "crossorigin=\x22anonymous\x22") ∧
      (∀ tag, LinkTagSri st true al path attrs = Except.ok tag →
        containsSubstr tag (renderAttr "integrity" (integrityHash content)) ∧
          containsSubstr tag "crossorigin=\x22anonymous\x22") := by
  refine ⟨rfl, escapeString_integrityHash content, rfl, rfl, ?_, ?_⟩
  · intro tag htag
    have hs : ScriptTagSri st true al path attrs =
        Except.ok ("<script " ++ mapToAttrs (scriptTagSriAttrs st path m content) ++
          "></script>") := by
      unfold ScriptTagSri
      rw [hm, hr]
      rfl
    rw [hs] at htag
    injection htag with he
    subst he
    constructor
    · refine containsSubstr_tag "<script " "></script>" _ _ _ ?_
      unfold scriptTagSriAttrs
      exact mem_mapInsert_of_ne _ _ _ _ _ (by decide) (mem_mapInsert_self _ _ _)
    · show containsSubstr _ (renderAttr "crossorigin" "anonymous")
      refine containsSubstr_tag "<script " "></script>" _ _ _ ?_
      unfold scriptTagSriAttrs
      exact mem_mapInsert_self _ _ _
  · intro tag htag
    have hs : LinkTagSri st true al path attrs =
        Except.ok ("<link " ++ mapToAttrs (linkTagSriAttrs st path m content) ++ "/>") := by
      unfold LinkTagSri
      rw [hm, hr]
      rfl
    rw [hs] at htag
    injection htag with he
    subst he
    constructor
    · refine containsSubstr_tag "<link " "/>" _ _ _ ?_
      unfold linkTagSriAttrs
      exact mem_mapInsert_of_ne _ _ _ _ _ (by decide) (mem_mapInsert_self _ _ _)
    · show containsSubstr _ (renderAttr "crossorigin" "anonymous")
      refine containsSubstr_tag "<link " "/>" _ _ _ ?_
      unfold linkTagSriAttrs
      exact mem_mapInsert_self _ _ _

/-- Witness for C2: the fox-newline bytes hash to the documented descriptor,
and the concrete SRI-rendered script tag contains the crossorigin
attribute. -/
theorem C2_witness :
    integrityHash foxBytes = "sha256-EVOkCA8fywRCWqC4QcKxRgb+bfJdkHbSofrOLVr1cSk=" ∧
      containsSubstr
        ("<script " ++ mapToAttrs (scriptTagSriAttrs sampleStatic "a" [] foxBytes) ++
          "></script>") "crossorigin=\x22anonymous\x22" :=
  ⟨(C2_sri_integrity sampleStatic (loaderOf foxBytes) "a" [] [] foxBytes rfl rfl).2.2.2.1,
    ((C2_sri_integrity sampleStatic (loaderOf foxBytes) "a" [] [] foxBytes rfl
      rfl).2.2.2.2.1 _ rfl).2⟩

end AssetHelper
